import Mathlib

/-!
Shallow embedding of the finite-element mesh reconstruction and extrusion
pipeline (`backend/services/med/med_mesher.py` and
`backend/services/med/vtk_extruder.py`), together with theorems settling the
specification claims about it.

Modelling conventions:
* Python floats are modelled as real numbers (`ℝ`); the geometry is therefore
  exact where the code computes with IEEE doubles.
* Python lists are Lean `List`s; `numpy` vectors of length 3 are `Vec3 = ℝ × ℝ × ℝ`.
* Python dictionaries that the pipeline builds by insertion are association
  lists in insertion order.
* `numpy` indexing `points[i]` is modelled with `List.getD` (out-of-range
  indexing is only exercised by the theorems under validity hypotheses).
* The external VTK geometry kernel (transform, linear extrusion, append,
  warp-by-normal filters) is modelled from its documented semantics; the
  normal-computation filter (`vtkPolyDataNormals`), whose numeric output the
  repository treats as opaque, is a parameter `normalsOf` of the shell path.
-/

namespace Med

/-! ## Connectivity Normalizer (`med_mesher.process_connectivity`) -/

/-- Embedding of `med_mesher.process_connectivity` ("Spiderweb fix").
Source: `if num_cells <= 0 or not raw_conn_flat: return []`;
`nodes_per_elem_total = total_len // num_cells`; for each of the `num_cells`
elements take the chunk of that many values and drop its first entry when the
chunk has more than one value.  `num_cells` is a cell count (non-negative in
the caller), so Python's `num_cells <= 0` is `num_cells = 0` here. -/
def process_connectivity (raw_conn_flat : List Int) (num_cells : Nat) : List (List Int) :=
  if num_cells = 0 ∨ raw_conn_flat = [] then []
  else
    let total_len := raw_conn_flat.length
    let nodes_per_elem_total := total_len / num_cells
    (List.range num_cells).map (fun i =>
      let chunk := (raw_conn_flat.drop (i * nodes_per_elem_total)).take nodes_per_elem_total
      if 1 < chunk.length then chunk.drop 1 else chunk)

/-- Modelled from the spec: the Connectivity Normalizer as §4.1 and §7 describe
it, failing with `MalformedConnectivityError` when the stride does not divide
evenly.  No such error class exists anywhere in the repository; this definition
exists only to be compared with `process_connectivity` above. -/
def process_connectivity_specModel (raw_conn_flat : List Int) (num_cells : Nat) :
    Except String (List (List Int)) :=
  if num_cells = 0 ∨ raw_conn_flat = [] then .ok []
  else if num_cells ∣ raw_conn_flat.length then .ok (process_connectivity raw_conn_flat num_cells)
  else .error "MalformedConnectivityError"

/-! ## Vectors and the modelled VTK geometry kernel -/

/-- A 3-vector of reals (one row of a numpy `(n, 3)` array). -/
abbrev Vec3 : Type := ℝ × ℝ × ℝ

/-- `np.dot` on 3-vectors. -/
def vdot (a b : Vec3) : ℝ := a.1 * b.1 + a.2.1 * b.2.1 + a.2.2 * b.2.2

/-- `np.cross` on 3-vectors. -/
def vcross (a b : Vec3) : Vec3 :=
  (a.2.1 * b.2.2 - a.2.2 * b.2.1, a.2.2 * b.1 - a.1 * b.2.2, a.1 * b.2.1 - a.2.1 * b.1)

/-- `np.linalg.norm` on 3-vectors. -/
noncomputable def vnorm (a : Vec3) : ℝ := Real.sqrt (vdot a a)

/-- `np.array(flat).reshape(-1, 3)`: regroup a flat coordinate list into
3-vectors (a trailing partial triple, an error in numpy, yields nothing). -/
def reshape3 : List ℝ → List Vec3
  | x :: y :: z :: rest => (x, y, z) :: reshape3 rest
  | _ => []

/-- Flatten a list of 3-vectors back into the point-major coordinate list. -/
def flatten3 : List Vec3 → List ℝ
  | [] => []
  | v :: rest => v.1 :: v.2.1 :: v.2.2 :: flatten3 rest

/-- A VTK `vtkPolyData`: points plus cells (index tuples into the points). -/
structure PolyData where
  points : List Vec3
  polys : List (List ℕ)

/-- Model of `vtkTransformPolyDataFilter`: apply an affine map to every point. -/
def transformPolyData (f : Vec3 → Vec3) (pd : PolyData) : PolyData :=
  { points := pd.points.map f, polys := pd.polys }

/-- Model of `vtkLinearExtrusionFilter` in vector mode, vector `v`, scale `s`:
every input point `p` is paired with its translate `p + s • v`; the cells are
the input cells (base cap) plus their translated copies (top cap). -/
def linearExtrusionVector (v : Vec3) (s : ℝ) (pd : PolyData) : PolyData :=
  { points := pd.points ++ pd.points.map (fun p => p + s • v),
    polys := pd.polys ++ pd.polys.map (List.map (· + pd.points.length)) }

/-- Model of `vtkWarpVector` driven by the point normals: displace every point
by `s` times its normal (`warp.SetScaleFactor(s)`). -/
def warpVector (s : ℝ) (pts normals : List Vec3) : List Vec3 :=
  List.zipWith (fun p n => p + s • n) pts normals

/-- Model of `vtkLinearExtrusionFilter` in normal mode with scale `s`: every
point is paired with its displacement `s` along its normal. -/
def linearExtrusionNormal (s : ℝ) (pd : PolyData) (normals : List Vec3) : PolyData :=
  { points := pd.points ++ warpVector s pd.points normals,
    polys := pd.polys ++ pd.polys.map (List.map (· + pd.points.length)) }

/-- Model of `vtkAppendPolyData`: concatenate datasets, shifting each dataset's
cell indices by the number of points accumulated before it. -/
def appendPolyData (l : List PolyData) : PolyData :=
  l.foldl
    (fun acc pd =>
      { points := acc.points ++ pd.points,
        polys := acc.polys ++ pd.polys.map (List.map (· + acc.points.length)) })
    { points := [], polys := [] }

/-- The dictionary produced by `vtk_dataset_to_dict`.  The source also reports
`vtk_type` and `count`; the pipeline never reads them, so they are not
carried. -/
structure MeshDict where
  status : Option String
  points : List ℝ
  connectivity : List (List ℕ)

/-- Embedding of `vtk_dataset_to_dict`: the empty dataset maps to the
`status: "empty"` dictionary, otherwise points are flattened back to a
coordinate list and the cells are copied. -/
def vtk_dataset_to_dict (pd : PolyData) : MeshDict :=
  if pd.points.length = 0 then { status := some "empty", points := [], connectivity := [] }
  else { status := none, points := flatten3 pd.points, connectivity := pd.polys }

/-! ## Beam direction normalization (`normalize_line_connectivity`) -/

/-- One iteration of the mean-direction loop of `normalize_line_connectivity`:
accumulates the unit tangent and the valid count, skipping segments with fewer
than two vertices or with `norm(vec) <= 1e-6`. -/
noncomputable def avgDirStep (points : List Vec3) (acc : Vec3 × ℕ) (seg : List ℕ) : Vec3 × ℕ :=
  if seg.length < 2 then acc
  else
    let p1 := points.getD (seg.getD 0 0) (0, 0, 0)
    let p2 := points.getD (seg.getD 1 0) (0, 0, 0)
    let vec := p2 - p1
    if 1e-6 < vnorm vec then (acc.1 + (vnorm vec)⁻¹ • vec, acc.2 + 1) else acc

/-- Embedding of `normalize_line_connectivity`: compute the mean unit tangent of
the group, then reverse every segment whose direction has dot product below
`-1e-6` against it.  A reversed segment is stored as the two-element list
`[seg[1], seg[0]]`, as in the source. -/
noncomputable def normalize_line_connectivity (connectivity : List (List ℕ))
    (points : List Vec3) : List (List ℕ) :=
  if connectivity.length < 1 then connectivity
  else
    let s := connectivity.foldl (avgDirStep points) ((0, 0, 0), 0)
    if s.2 = 0 then connectivity
    else
      let avg_dir := ((s.2 : ℝ))⁻¹ • s.1
      connectivity.map (fun seg =>
        if seg.length < 2 then seg
        else
          let p1 := points.getD (seg.getD 0 0) (0, 0, 0)
          let p2 := points.getD (seg.getD 1 0) (0, 0, 0)
          let vec := p2 - p1
          if vdot vec avg_dir < -1e-6 then [seg.getD 1 0, seg.getD 0 0] else seg)

/-! ## Beam Sweep Builder (`extrude_beam_memory`) -/

/-- The beam centreline data handed to the builder: flat coordinates and
segment connectivity. -/
structure BeamInput where
  points : List ℝ
  connectivity : List (List ℕ)

/-- The in-memory cross-section (`section_mesh`): `(y, z)` vertices and
triangle connectivity.  The flat-list fallback of the source is not modelled:
vertices arrive as pairs. -/
structure SectionMesh where
  vertices : List (ℝ × ℝ)
  triangles : List (List ℕ)

/-- Extrusion parameters (`section_params`): absent keys are `none`. -/
structure SectionParams where
  thickness : Option ℝ
  offset : Option ℝ

/-- The segment transform of the beam loop: columns `x_axis`, `y_axis`,
`z_axis` and translation `p1` of the 4×4 matrix, applied to a point. -/
def applyFrame (x y z t : Vec3) (p : Vec3) : Vec3 :=
  p.1 • x + p.2.1 • y + p.2.2 • z + t

/-- The body of the per-segment loop of `extrude_beam_memory`: `none` when the
segment is skipped (fewer than two vertices, or `length < 1e-6`), otherwise the
extruded fragment of the transformed cross-section. -/
noncomputable def beamSegmentSolid (beam_pts : List Vec3) (sect : PolyData)
    (seg : List ℕ) : Option PolyData :=
  if seg.length < 2 then none
  else
    let p1 := beam_pts.getD (seg.getD 0 0) (0, 0, 0)
    let p2 := beam_pts.getD (seg.getD 1 0) (0, 0, 0)
    let vec := p2 - p1
    let length := vnorm vec
    if length < 1e-6 then none
    else
      let dir_v := length⁻¹ • vec
      let x_axis := dir_v
      let up_ref : Vec3 :=
        if 0.99 < |vdot x_axis (0, 0, 1)| then (0, 1, 0) else (0, 0, 1)
      let y0 := vcross up_ref x_axis
      let y_axis := (vnorm y0)⁻¹ • y0
      let z0 := vcross x_axis y_axis
      let z_axis := (vnorm z0)⁻¹ • z0
      some (linearExtrusionVector dir_v length
        (transformPolyData (applyFrame x_axis y_axis z_axis p1) sect))

/-- Embedding of `extrude_beam_memory`.  `params` is accepted and ignored, as
in the source ("double offset fix": the section vertices already carry the y/z
offsets).  The section becomes a PolyData with points `(0, y, z)`; the segments
are direction-normalized, the degenerate ones skipped, and the fragments merged
by the append filter. -/
noncomputable def extrude_beam_memory (beam_data : BeamInput)
    (section_mesh : SectionMesh) (params : SectionParams) : MeshDict :=
  let sect : PolyData :=
    { points := section_mesh.vertices.map (fun v => ((0 : ℝ), v.1, v.2)),
      polys := section_mesh.triangles }
  let beam_pts := reshape3 beam_data.points
  let normalized_conn := normalize_line_connectivity beam_data.connectivity beam_pts
  vtk_dataset_to_dict
    (appendPolyData (normalized_conn.filterMap (beamSegmentSolid beam_pts sect)))

/-! ## Shell Extrusion Builder (`extrude_shell_memory`) -/

/-- The shell data handed to the builder. -/
structure ShellInput where
  points : List ℝ
  connectivity : List (List ℕ)
  vtk_type : ℕ

/-- Embedding of `extrude_shell_memory`.  The `vtkPolyDataNormals` filter
(point normals, `AutoOrientNormalsOn`, `SplittingOff`) leaves the points
unchanged and attaches one normal per point; its numeric output is the opaque
parameter `normalsOf`.  The warp moves every point by `offset - thickness/2`
along its normal, then the normal-mode extrusion adds the `thickness`
displacement. -/
noncomputable def extrude_shell_memory
    (normalsOf : List Vec3 → List (List ℕ) → List Vec3)
    (data : ShellInput) (params : SectionParams) : MeshDict :=
  let thickness := params.thickness.getD 10
  let offset := params.offset.getD 0
  let pts := reshape3 data.points
  let normals := normalsOf pts data.connectivity
  let warped := warpVector (offset - thickness / 2) pts normals
  vtk_dataset_to_dict
    (linearExtrusionNormal thickness { points := warped, polys := data.connectivity } normals)

/-! ## Pipeline orchestration (`med_to_vtk_pipeline`) -/

/-- The per-group payload produced by `med_mesher` (the keys the pipeline
reads). -/
structure GroupData where
  points : List ℝ
  connectivity : List (List ℕ)
  vtk_type : ℕ

/-- One entry of a geometry configuration (`geometries` argument): the group it
applies to, the optional `_category` override, the section parameters and the
optional in-memory cross-section.  An absent `section_params` dictionary is
`⟨none, none⟩`. -/
structure GeomConfig where
  group : Option String
  category : Option String
  section_params : SectionParams
  section_mesh : Option SectionMesh

/-- One value of the output `cells` mapping.  `typ` is the source's `"type"`
key. -/
structure CellEntry where
  typ : String
  vtk_type : ℕ
  connectivity : List (List ℕ)
  is_extruded : Bool
  is_base : Bool

/-- Python dictionary assignment `m[k] = v` on an insertion-ordered
association list: overwrite in place if the key exists, append otherwise. -/
def dictInsert {α : Type} (m : List (String × α)) (k : String) (v : α) :
    List (String × α) :=
  if m.any (fun p => p.1 = k) then m.map (fun p => if p.1 = k then (k, v) else p)
  else m ++ [(k, v)]

/-- Python `m.get(k)` on an association list. -/
def dictGet {α : Type} (m : List (String × α)) (k : String) : Option α :=
  (m.find? (fun p => p.1 = k)).map Prod.snd

/-- The `geom_map` build loop of the pipeline: keyed by the upper-cased,
stripped group name; entries without a (truthy) `group` key are skipped. -/
def buildGeomMap (geometries : List GeomConfig) : List (String × GeomConfig) :=
  geometries.foldl
    (fun m g =>
      match g.group with
      | some name => if name = "" then m else dictInsert m (name.trim.toUpper) g
      | none => m)
    []

/-- The `cell_type_str` lookup of the pipeline. -/
def cellTypeStr (vtk_type : ℕ) : String :=
  if vtk_type = 3 then "line"
  else if vtk_type = 5 then "triangle"
  else if vtk_type = 9 then "quad"
  else if vtk_type = 10 then "tetra"
  else if vtk_type = 12 then "hexa"
  else if vtk_type = 1 then "vertex"
  else "unknown"

/-- The category derivation of the pipeline: the config's `_category` when
present and truthy, otherwise auto-detected from the cell type. -/
def deriveCategory (cfg : Option GeomConfig) (cell : String) : String :=
  let c0 := (cfg.bind GeomConfig.category).getD ""
  if c0 ≠ "" then c0
  else if cell = "line" then "1D"
  else if cell = "triangle" ∨ cell = "quad" then "2D"
  else "3D"

/-- The emission block the source duplicates in the beam and shell branches:
record the base cell, and when the builder result `res` is non-empty compute
`base_idx = len(final_points) // 3`, append the result's points and record the
`_EXTRUSION` cell with the shifted connectivity. -/
def emitWithExtrusion (acc : List ℝ × List (String × CellEntry)) (g_name : String)
    (base : CellEntry) (res : MeshDict) : List ℝ × List (String × CellEntry) :=
  let cells1 := dictInsert acc.2 g_name base
  if res.status ≠ some "empty" then
    let base_idx := acc.1.length / 3
    let final_points := acc.1 ++ res.points
    let translated := res.connectivity.map (List.map (· + base_idx))
    (final_points,
      dictInsert cells1 (g_name ++ "_EXTRUSION") ⟨"quad", 9, translated, true, false⟩)
  else (acc.1, cells1)

/-- The body of the per-group loop of `med_to_vtk_pipeline`.  `points` is the
master (full-mesh) coordinate list; the accumulator carries `final_points` and
`final_cells`.  A group named `"_FULL_MESH_"` is skipped (`continue`).  A
"truthy" `section_mesh` in the source is a `some` here. -/
noncomputable def processGroup (normalsOf : List Vec3 → List (List ℕ) → List Vec3)
    (points : List ℝ) (geom_map : List (String × GeomConfig))
    (acc : List ℝ × List (String × CellEntry)) (g : String × GroupData) :
    List ℝ × List (String × CellEntry) :=
  let g_name := g.1
  if g_name = "_FULL_MESH_" then acc
  else
    let connectivity := g.2.connectivity
    let vtk_type := g.2.vtk_type
    let geom_config := dictGet geom_map (g_name.trim.toUpper)
    let params := (geom_config.map GeomConfig.section_params).getD ⟨none, none⟩
    let cell_type_str := cellTypeStr vtk_type
    let category := deriveCategory geom_config cell_type_str
    if category = "1D" ∧ cell_type_str = "line" ∧
        (geom_config.bind GeomConfig.section_mesh).isSome then
      let section_mesh := (geom_config.bind GeomConfig.section_mesh).getD ⟨[], []⟩
      let res := extrude_beam_memory ⟨points, connectivity⟩ section_mesh params
      emitWithExtrusion acc g_name ⟨"line", 3, connectivity, false, true⟩ res
    else if category = "2D" ∧ 0 < params.thickness.getD 0 then
      let res := extrude_shell_memory normalsOf ⟨points, connectivity, vtk_type⟩ params
      emitWithExtrusion acc g_name ⟨cell_type_str, vtk_type, connectivity, false, true⟩ res
    else
      (acc.1, dictInsert acc.2 g_name ⟨cell_type_str, vtk_type, connectivity, false, true⟩)

/-- The success payload of the pipeline. -/
structure PipelineOut where
  points : List ℝ
  cells : List (String × CellEntry)
  num_points : ℕ
  num_groups : ℕ

/-- The master-group selection of the pipeline: the `_FULL_MESH_` entry,
falling back to the first group. -/
def pipelineFullMesh (mesh_groups : List (String × GroupData)) : Option GroupData :=
  match dictGet mesh_groups "_FULL_MESH_" with
  | some fm => some fm
  | none => mesh_groups.head?.map Prod.snd

/-- Embedding of the post-extraction logic of `med_to_vtk_pipeline` (the
file-existence check and the `med_mesher` subprocess are I/O; their result,
the `groups` mapping, is the `mesh_groups` input here, in insertion order).
The master points are the `_FULL_MESH_` entry's, falling back to the first
group's; with no groups at all the pipeline errors out. -/
noncomputable def med_to_vtk_pipeline (normalsOf : List Vec3 → List (List ℕ) → List Vec3)
    (mesh_groups : List (String × GroupData)) (geometries : List GeomConfig) :
    Except String PipelineOut :=
  match pipelineFullMesh mesh_groups with
  | none => .error "No valid mesh groups found"
  | some fm =>
    let points := fm.points
    let geom_map := buildGeomMap geometries
    let r := mesh_groups.foldl (processGroup normalsOf points geom_map) (points, [])
    .ok ⟨r.1, r.2, r.1.length / 3, r.2.length⟩

/-- The keep-side of the Beam Sweep Builder's skip rule: a segment is dropped
exactly when it has two endpoints and they are closer than `1e-6`. -/
noncomputable def keepSegment (points : List Vec3) (seg : List ℕ) : Bool :=
  if seg.length < 2 then true
  else if vnorm (points.getD (seg.getD 1 0) (0, 0, 0) -
      points.getD (seg.getD 0 0) (0, 0, 0)) < 1e-6 then false
  else true

/-- A connectivity with its degenerate (shorter than `1e-6`) segments removed. -/
noncomputable def withoutDegenerate (points : List Vec3) (conn : List (List ℕ)) :
    List (List ℕ) :=
  conn.filter (keepSegment points)

/-- Well-formedness of a VTK dataset: every cell index addresses a point. -/
def pdValid (pd : PolyData) : Prop :=
  ∀ c ∈ pd.polys, ∀ i ∈ c, i < pd.points.length

/-- Validity of every group's connectivity against its own points array (the
hypothesis C2 states). -/
def groupOwnValid (gs : List (String × GroupData)) : Prop :=
  ∀ g ∈ gs, ∀ c ∈ g.2.connectivity, ∀ i ∈ c, i < g.2.points.length / 3

/-- Validity of every group's connectivity against the master points array
(what the pipeline actually needs, since it pairs every group's connectivity
with the full-mesh points). -/
def groupMasterValid (gs : List (String × GroupData)) (master : List ℝ) : Prop :=
  ∀ g ∈ gs, ∀ c ∈ g.2.connectivity, ∀ i ∈ c, i < master.length / 3

/-- The §3 profile invariant: triangles reference only profile vertices. -/
def geomProfilesValid (geoms : List GeomConfig) : Prop :=
  ∀ g ∈ geoms, ∀ sm : SectionMesh, g.section_mesh = some sm →
    ∀ t ∈ sm.triangles, ∀ i ∈ t, i < sm.vertices.length

/-- The spec's index-validity invariant over a merged scene: every stored
connectivity index of every component is below `len(points) / 3`. -/
def sceneValid (out : PipelineOut) : Prop :=
  ∀ p ∈ out.cells, ∀ c ∈ (p : String × CellEntry).2.connectivity, ∀ i ∈ c,
    i < out.points.length / 3

/-! ### Concrete fixtures used by witnesses and counterexamples -/

/-- The C2 counterexample input: the master mesh has one point, while group
`"G"` carries two points of its own and the (own-points-valid) connectivity
`[[1]]`. -/
def cexGroups : List (String × GroupData) :=
  [("_FULL_MESH_", ⟨[(0 : ℝ), 0, 0], [], 5⟩),
   ("G", ⟨[(0 : ℝ), 0, 0, 1, 1, 1], [[1]], 1⟩)]

/-- The scene the pipeline produces from `cexGroups`: index 1 stored against a
single-point array. -/
def cexOut : PipelineOut :=
  ⟨[(0 : ℝ), 0, 0], [("G", ⟨"vertex", 1, [[1]], false, true⟩)], 1, 1⟩

/-- A valid one-point scene input for the C2 witness. -/
def c2wGroups : List (String × GroupData) :=
  [("_FULL_MESH_", ⟨[(0 : ℝ), 0, 0], [], 5⟩), ("G", ⟨[(0 : ℝ), 0, 0], [[0]], 1⟩)]

/-- The scene produced from `c2wGroups`. -/
def c2wOut : PipelineOut :=
  ⟨[(0 : ℝ), 0, 0], [("G", ⟨"vertex", 1, [[0]], false, true⟩)], 1, 1⟩

/-- Beam centreline fixture: three collinear points, flat coordinates. -/
def wBeamFlat : List ℝ := [0, 0, 0, 1, 0, 0, 2, 0, 0]

/-- The unit-square cross-section profile of the spec's end-to-end scenario. -/
noncomputable def wSq : SectionMesh :=
  ⟨[(-(1 : ℝ) / 2, -(1 : ℝ) / 2), ((1 : ℝ) / 2, -(1 : ℝ) / 2), ((1 : ℝ) / 2, (1 : ℝ) / 2),
      (-(1 : ℝ) / 2, (1 : ℝ) / 2)],
    [[0, 1, 2], [0, 2, 3]]⟩

/-- A constant unit-Z normal field standing in for `vtkPolyDataNormals`. -/
noncomputable def wNf : List Vec3 → List (List ℕ) → List Vec3 := fun _ _ => [((0 : ℝ), 0, 1)]

/-- Geometry configuration for the witness group: thickness 2, offset 0. -/
def wCfg : GeomConfig := ⟨some "G", none, ⟨some 2, some 0⟩, none⟩

/-- The witness geometry map, keyed the way the pipeline looks names up. -/
def wGm : List (String × GeomConfig) := [(("G" : String).trim.toUpper, wCfg)]

/-- The shell builder result for the witness group. -/
noncomputable def wRes : MeshDict :=
  extrude_shell_memory wNf ⟨[(0 : ℝ), 0, 0], [[0]], 5⟩ ⟨some 2, some 0⟩

/-- The three collinear points of the spec's direction-normalization example. -/
def wPts3 : List Vec3 := [((0 : ℝ), 0, 0), ((1 : ℝ), 0, 0), ((2 : ℝ), 0, 0)]

/-- Four collinear points for the majority-vote example. -/
def wPts4 : List Vec3 :=
  [((0 : ℝ), 0, 0), ((1 : ℝ), 0, 0), ((2 : ℝ), 0, 0), ((3 : ℝ), 0, 0)]

/-! ## Theorems: Connectivity Normalizer -/

/-- The `i`-th chunk of the flat list has exactly `stride` values when the
stride divides evenly. -/
theorem chunk_length (flat : List Int) (n i : ℕ) (hn : 0 < n) (hd : n ∣ flat.length)
    (hi : i < n) :
    ((flat.drop (i * (flat.length / n))).take (flat.length / n)).length = flat.length / n := by
  obtain ⟨q, hq⟩ := hd
  have hstride : flat.length / n = q := by rw [hq, Nat.mul_div_cancel_left _ hn]
  have h1 : (i + 1) * q ≤ n * q := Nat.mul_le_mul_right q hi
  have h2 : i * q + q ≤ n * q := by rw [Nat.succ_mul] at h1; exact h1
  simp only [List.length_take, List.length_drop, hstride]
  rw [hq]
  omega

/-- C3: the Connectivity Normalizer slices `stride = len(flat)/n` values per
element, drops the first value of each slice when `stride > 1` and keeps the
single value when `stride = 1`; in particular on
`[3,1,2,3, 3,4,5,6, 3,7,8,9]` with `n = 3` it returns
`[[1,2,3],[4,5,6],[7,8,9]]`. -/
theorem claim_C3 (flat : List Int) (n i : ℕ) (hn : 0 < n) (hd : n ∣ flat.length)
    (hne : flat ≠ []) (hi : i < n) :
    ((process_connectivity flat n).length = n ∧
      (process_connectivity flat n).get? i =
        some (if 1 < flat.length / n then
                ((flat.drop (i * (flat.length / n))).take (flat.length / n)).drop 1
              else (flat.drop (i * (flat.length / n))).take (flat.length / n))) ∧
    process_connectivity [3, 1, 2, 3, 3, 4, 5, 6, 3, 7, 8, 9] 3 =
      [[1, 2, 3], [4, 5, 6], [7, 8, 9]] := by
  have hguard : ¬ (n = 0 ∨ flat = []) := by
    push_neg
    exact ⟨hn.ne', hne⟩
  refine ⟨⟨?_, ?_⟩, by decide⟩
  · rw [process_connectivity, if_neg hguard]
    simp
  · rw [process_connectivity, if_neg hguard]
    rw [List.get?_eq_getElem?, List.getElem?_map, List.getElem?_range hi]
    simp only [Option.map_some']
    rw [chunk_length flat n i hn hd hi]

/-- C4 counterexample: on `[1,2,3]` with `n = 2` the stride does not divide
evenly, yet `process_connectivity` raises nothing: it floors the stride to 1,
returns `[[1],[2]]` and silently drops the trailing value, where the
spec-modelled normalizer fails with `MalformedConnectivityError`. -/
theorem claim_C4_counterexample :
    process_connectivity [1, 2, 3] 2 = [[1], [2]] ∧
    process_connectivity_specModel [1, 2, 3] 2 =
      Except.error "MalformedConnectivityError" := by
  exact ⟨by decide, rfl⟩

/-- C4 amended: when the length of the flat sequence is not an exact multiple
of `n`, the Connectivity Normalizer does not fail; it uses the floored stride
and silently ignores the trailing values: appending fewer than `n` extra
values to an evenly-divisible flat list leaves its output unchanged. -/
theorem claim_C4 (flat extra : List Int) (n : ℕ) (hn : 0 < n) (hd : n ∣ flat.length)
    (hne : flat ≠ []) (hex : extra.length < n) :
    process_connectivity (flat ++ extra) n = process_connectivity flat n := by
  obtain ⟨q, hq⟩ := hd
  have hstrq : flat.length / n = q := by rw [hq, Nat.mul_div_cancel_left _ hn]
  have hstride : (flat ++ extra).length / n = flat.length / n := by
    rw [List.length_append, hq, Nat.mul_add_div hn, Nat.div_eq_of_lt hex, Nat.add_zero,
      Nat.mul_div_cancel_left _ hn]
  have hne2 : flat ++ extra ≠ [] := by
    intro h
    exact hne (List.append_eq_nil.mp h).1
  have hguard : ¬ (n = 0 ∨ flat = []) := by
    push_neg
    exact ⟨hn.ne', hne⟩
  have hguard2 : ¬ (n = 0 ∨ flat ++ extra = []) := by
    push_neg
    exact ⟨hn.ne', hne2⟩
  simp only [process_connectivity, if_neg hguard, if_neg hguard2]
  rw [hstride]
  apply List.map_congr_left
  intro i hmem
  rw [List.mem_range] at hmem
  have h1 : (i + 1) * q ≤ n * q := Nat.mul_le_mul_right q hmem
  have h2 : i * q + q ≤ n * q := by rw [Nat.succ_mul] at h1; exact h1
  have hchunk : (flat ++ extra).drop (i * (flat.length / n)) =
      flat.drop (i * (flat.length / n)) ++ extra := by
    apply List.drop_append_of_le_length
    rw [hstrq, hq]
    omega
  rw [hchunk]
  have htake : (flat.drop (i * (flat.length / n)) ++ extra).take (flat.length / n) =
      (flat.drop (i * (flat.length / n))).take (flat.length / n) := by
    apply List.take_append_of_le_length
    rw [List.length_drop, hstrq, hq]
    omega
  rw [htake]

/-! ## Theorems: pipeline cell naming (helper lemmas) -/

/-- Membership after a dictionary assignment: the element was already present
or it carries the assigned key. -/
theorem dictInsert_mem {α : Type} {m : List (String × α)} {k : String} {v : α}
    {p : String × α} (h : p ∈ dictInsert m k v) : p ∈ m ∨ p.1 = k := by
  unfold dictInsert at h
  split at h
  · rw [List.mem_map] at h
    obtain ⟨q, hq, hpq⟩ := h
    by_cases hk : q.1 = k
    · right
      rw [← hpq, if_pos hk]
    · left
      rw [← hpq, if_neg hk]
      exact hq
  · rw [List.mem_append] at h
    rcases h with h | h
    · exact Or.inl h
    · right
      rw [List.mem_singleton] at h
      rw [h]

/-- Assigning a key absent from the dictionary appends the new pair. -/
theorem dictInsert_fresh {α : Type} {m : List (String × α)} {k : String} {v : α}
    (hfresh : ∀ w : α, (k, w) ∉ m) : dictInsert m k v = m ++ [(k, v)] := by
  unfold dictInsert
  rw [if_neg]
  intro hany
  rw [List.any_eq_true] at hany
  obtain ⟨p, hp, hpk⟩ := hany
  rw [decide_eq_true_eq] at hpk
  exact hfresh p.2 (by rw [← hpk]; exact hp)

/-- No group name suffixed with `"_EXTRUSION"` can collide with the
`"_FULL_MESH_"` pseudo-group key. -/
theorem append_extrusion_ne_full (s : String) : s ++ "_EXTRUSION" ≠ "_FULL_MESH_" := by
  intro h
  have hd : s.data ++ ("_EXTRUSION" : String).data = ("_FULL_MESH_" : String).data := by
    rw [← String.data_append, h]
  have hlen := congrArg List.length hd
  simp only [List.length_append] at hlen
  have h10 : (("_EXTRUSION" : String).data).length = 10 := rfl
  have h11 : (("_FULL_MESH_" : String).data).length = 11 := rfl
  rw [h10, h11] at hlen
  have hs1 : s.data.length = 1 := by omega
  obtain ⟨c, hc⟩ : ∃ c, s.data = [c] := by
    cases hs : s.data with
    | nil => rw [hs] at hs1; simp at hs1
    | cons a t =>
      rw [hs] at hs1
      simp at hs1
      subst hs1
      exact ⟨a, rfl⟩
  rw [hc] at hd
  simp only [List.cons_append, List.nil_append] at hd
  have hch : ('_' : Char) = 'F' := by
    have := congrArg (fun l => l.getD 1 ' ') hd
    simpa using this
  exact absurd hch (by decide)

/-- A name suffixed with `"_EXTRUSION"` differs from the bare name. -/
theorem append_extrusion_ne_self (s : String) : s ++ "_EXTRUSION" ≠ s := by
  intro h
  have hlen := congrArg String.length h
  rw [String.length_append] at hlen
  have h10 : ("_EXTRUSION" : String).length = 10 := rfl
  rw [h10] at hlen
  omega

/-- Inserting a non-`"_FULL_MESH_"` key preserves the absence of a
`"_FULL_MESH_"` entry. -/
theorem not_full_after_insert {m : List (String × CellEntry)} {k : String} {v : CellEntry}
    (hk : k ≠ "_FULL_MESH_") (h : ∀ e : CellEntry, ("_FULL_MESH_", e) ∉ m) :
    ∀ e : CellEntry, ("_FULL_MESH_", e) ∉ dictInsert m k v := by
  intro e hmem
  rcases dictInsert_mem hmem with hin | hkey
  · exact h e hin
  · exact hk hkey.symm

/-- The emission block never introduces a `"_FULL_MESH_"` cells entry when the
group name differs from it. -/
theorem emitWithExtrusion_not_full {acc : List ℝ × List (String × CellEntry)}
    {g_name : String} {base : CellEntry} {res : MeshDict}
    (hg : g_name ≠ "_FULL_MESH_")
    (h : ∀ e : CellEntry, ("_FULL_MESH_", e) ∉ acc.2) :
    ∀ e : CellEntry, ("_FULL_MESH_", e) ∉ (emitWithExtrusion acc g_name base res).2 := by
  unfold emitWithExtrusion
  split
  · exact not_full_after_insert (append_extrusion_ne_full g_name)
      (not_full_after_insert hg h)
  · exact not_full_after_insert hg h

/-- The per-group step never introduces a `"_FULL_MESH_"` cells entry. -/
theorem processGroup_not_full (normalsOf : List Vec3 → List (List ℕ) → List Vec3)
    (points : List ℝ) (geom_map : List (String × GeomConfig))
    (acc : List ℝ × List (String × CellEntry)) (g : String × GroupData)
    (h : ∀ e : CellEntry, ("_FULL_MESH_", e) ∉ acc.2) :
    ∀ e : CellEntry, ("_FULL_MESH_", e) ∉ (processGroup normalsOf points geom_map acc g).2 := by
  by_cases hfull : g.1 = "_FULL_MESH_"
  · simp only [processGroup, if_pos hfull]
    exact h
  · simp only [processGroup, if_neg hfull]
    split
    · exact emitWithExtrusion_not_full hfull h
    · split
      · exact emitWithExtrusion_not_full hfull h
      · exact not_full_after_insert hfull h

/-- C10: the `cells` mapping of a successful pipeline run never contains a
component named `"_FULL_MESH_"`; the whole-mesh pseudo-group is consumed only
as the master points and is never emitted. -/
theorem claim_C10 (normalsOf : List Vec3 → List (List ℕ) → List Vec3)
    (mesh_groups : List (String × GroupData)) (geometries : List GeomConfig)
    (out : PipelineOut)
    (h : med_to_vtk_pipeline normalsOf mesh_groups geometries = Except.ok out) :
    ∀ e : CellEntry, ("_FULL_MESH_", e) ∉ out.cells := by
  have hfold : ∀ (gs : List (String × GroupData)) (pts : List ℝ)
      (gm : List (String × GeomConfig)) (acc : List ℝ × List (String × CellEntry)),
      (∀ e : CellEntry, ("_FULL_MESH_", e) ∉ acc.2) →
      ∀ e : CellEntry,
        ("_FULL_MESH_", e) ∉ (gs.foldl (processGroup normalsOf pts gm) acc).2 := by
    intro gs
    induction gs with
    | nil => intro pts gm acc hacc; exact hacc
    | cons hd tl ih =>
      intro pts gm acc hacc
      exact ih pts gm _ (processGroup_not_full normalsOf pts gm acc hd hacc)
  unfold med_to_vtk_pipeline at h
  split at h
  · exact absurd h (by simp)
  · simp only [Except.ok.injEq] at h
    rw [← h]
    exact hfold mesh_groups _ _ _ (by intro e he; simp at he)

/-- C7: a group whose derived category is `"2D"` with configured thickness
`≤ 0` (including an absent thickness, which defaults to 0) passes through the
per-group step as the single `is_base` flat component: the step appends
exactly that base cell, appends no points, emits no `is_extruded` sibling and
never reaches the Shell Extrusion Builder. -/
theorem claim_C7 (normalsOf : List Vec3 → List (List ℕ) → List Vec3)
    (points : List ℝ) (geom_map : List (String × GeomConfig))
    (acc : List ℝ × List (String × CellEntry)) (g : String × GroupData)
    (hfull : g.1 ≠ "_FULL_MESH_")
    (hcat : deriveCategory (dictGet geom_map (g.1.trim.toUpper))
        (cellTypeStr g.2.vtk_type) = "2D")
    (hthick : (((dictGet geom_map (g.1.trim.toUpper)).map
        GeomConfig.section_params).getD ⟨none, none⟩).thickness.getD 0 ≤ 0) :
    processGroup normalsOf points geom_map acc g =
      (acc.1, dictInsert acc.2 g.1
        ⟨cellTypeStr g.2.vtk_type, g.2.vtk_type, g.2.connectivity, false, true⟩) := by
  simp only [processGroup, if_neg hfull, hcat]
  rw [if_neg, if_neg]
  · rintro ⟨-, hpos⟩
    exact absurd hpos (not_lt.mpr hthick)
  · rintro ⟨hone, -⟩
    exact absurd hone (by decide)

/-- Witness for C3 at the spec's concrete input. -/
theorem claim_C3_witness :
    (process_connectivity [3, 1, 2, 3, 3, 4, 5, 6, 3, 7, 8, 9] 3).length = 3 ∧
    (process_connectivity [3, 1, 2, 3, 3, 4, 5, 6, 3, 7, 8, 9] 3).get? 1 = some [4, 5, 6] := by
  have h := claim_C3 [3, 1, 2, 3, 3, 4, 5, 6, 3, 7, 8, 9] 3 1 (by decide) (by decide)
    (by decide) (by decide)
  exact ⟨h.1.1, by rw [h.1.2]; decide⟩

/-- Witness for the amended C4: the trailing value `9` is silently ignored. -/
theorem claim_C4_witness :
    process_connectivity ([7, 1, 2] ++ [9]) 3 = process_connectivity [7, 1, 2] 3 :=
  claim_C4 [7, 1, 2] [9] 3 (by decide) (by decide) (by decide) (by decide)

/-- Witness for C7: an unconfigured triangle group (auto-category 2D, default
thickness 0) passes through as its base cell only. -/
theorem claim_C7_witness :
    processGroup (fun _ _ => []) [] [] ([], []) ("G", ⟨[], [[0]], 5⟩) =
      ([], [("G", ⟨"triangle", 5, [[0]], false, true⟩)]) :=
  (claim_C7 (fun _ _ => []) [] [] ([], []) ("G", ⟨[], [[0]], 5⟩)
    (by decide) (by decide) (le_refl 0)).trans rfl

/-- Witness for C10 on a one-group scene. -/
theorem claim_C10_witness :
    ("_FULL_MESH_", (⟨"vertex", 1, [], false, true⟩ : CellEntry)) ∉
      (PipelineOut.mk [(0 : ℝ), 0, 0] [("G", ⟨"vertex", 1, [], false, true⟩)] 1 1).cells :=
  claim_C10 (fun _ _ => []) [("G", ⟨[(0 : ℝ), 0, 0], [], 1⟩)] []
    (PipelineOut.mk [(0 : ℝ), 0, 0] [("G", ⟨"vertex", 1, [], false, true⟩)] 1 1) rfl
    ⟨"vertex", 1, [], false, true⟩

/-! ## Theorems: Scene Assembler offset invariant (C1) -/

/-- What the emission block does to an `_EXTRUSION` entry that was not
already present: it exists only when the builder result is non-empty, the
appended points are the result's points, and the stored connectivity is the
local one shifted by the pre-append `len(final_points) // 3`. -/
theorem emitWithExtrusion_mem {acc : List ℝ × List (String × CellEntry)}
    {g_name : String} {base : CellEntry} {res : MeshDict} {e : CellEntry}
    (hfresh : ∀ v : CellEntry, (g_name ++ "_EXTRUSION", v) ∉ acc.2)
    (hmem : (g_name ++ "_EXTRUSION", e) ∈ (emitWithExtrusion acc g_name base res).2) :
    res.status ≠ some "empty" ∧
    (emitWithExtrusion acc g_name base res).1 = acc.1 ++ res.points ∧
    e = ⟨"quad", 9, res.connectivity.map (List.map (· + acc.1.length / 3)), true, false⟩ := by
  have hfresh2 : ∀ v : CellEntry, (g_name ++ "_EXTRUSION", v) ∉ dictInsert acc.2 g_name base := by
    intro v hv
    rcases dictInsert_mem hv with h | h
    · exact hfresh v h
    · exact append_extrusion_ne_self g_name h
  unfold emitWithExtrusion at hmem ⊢
  by_cases hs : res.status ≠ some "empty"
  · rw [if_pos hs] at hmem ⊢
    refine ⟨hs, rfl, ?_⟩
    have hmem2 : (g_name ++ "_EXTRUSION", e) ∈
        dictInsert (dictInsert acc.2 g_name base) (g_name ++ "_EXTRUSION")
          ⟨"quad", 9, res.connectivity.map (List.map (· + acc.1.length / 3)), true, false⟩ :=
      hmem
    rw [dictInsert_fresh hfresh2, List.mem_append] at hmem2
    rcases hmem2 with hmem2 | hmem2
    · exact absurd hmem2 (hfresh2 e)
    · rw [List.mem_singleton, Prod.mk.injEq] at hmem2
      exact hmem2.2
  · rw [if_neg hs] at hmem
    exact absurd hmem (hfresh2 e)

/-- The three possible outcomes of the per-group step for a non-skipped group:
beam emission, shell emission, or plain base pass-through. -/
theorem processGroup_cases (normalsOf : List Vec3 → List (List ℕ) → List Vec3)
    (points : List ℝ) (geom_map : List (String × GeomConfig))
    (acc : List ℝ × List (String × CellEntry)) (g : String × GroupData)
    (hfull : g.1 ≠ "_FULL_MESH_") :
    processGroup normalsOf points geom_map acc g =
      emitWithExtrusion acc g.1 ⟨"line", 3, g.2.connectivity, false, true⟩
        (extrude_beam_memory ⟨points, g.2.connectivity⟩
          (((dictGet geom_map (g.1.trim.toUpper)).bind GeomConfig.section_mesh).getD ⟨[], []⟩)
          (((dictGet geom_map (g.1.trim.toUpper)).map GeomConfig.section_params).getD
            ⟨none, none⟩)) ∨
    processGroup normalsOf points geom_map acc g =
      emitWithExtrusion acc g.1
        ⟨cellTypeStr g.2.vtk_type, g.2.vtk_type, g.2.connectivity, false, true⟩
        (extrude_shell_memory normalsOf ⟨points, g.2.connectivity, g.2.vtk_type⟩
          (((dictGet geom_map (g.1.trim.toUpper)).map GeomConfig.section_params).getD
            ⟨none, none⟩)) ∨
    processGroup normalsOf points geom_map acc g =
      (acc.1, dictInsert acc.2 g.1
        ⟨cellTypeStr g.2.vtk_type, g.2.vtk_type, g.2.connectivity, false, true⟩) := by
  simp only [processGroup, if_neg hfull]
  split
  · exact Or.inl rfl
  · split
    · exact Or.inr (Or.inl rfl)
    · exact Or.inr (Or.inr rfl)

/-- C1: whenever the per-group step emits a freshly-named extruded component,
that component comes from one of the two builders, the points appended to the
scene are exactly the builder result's points, and the stored connectivity is
the builder's local connectivity shifted by `len(final_points) // 3` computed
before the append — so each stored index is the accumulated point count of
everything already merged plus the local index. -/
theorem claim_C1 (normalsOf : List Vec3 → List (List ℕ) → List Vec3)
    (points : List ℝ) (geom_map : List (String × GeomConfig))
    (acc : List ℝ × List (String × CellEntry)) (g : String × GroupData) (e : CellEntry)
    (hfresh : ∀ v : CellEntry, (g.1 ++ "_EXTRUSION", v) ∉ acc.2)
    (hmem : (g.1 ++ "_EXTRUSION", e) ∈ (processGroup normalsOf points geom_map acc g).2) :
    ∃ res : MeshDict,
      (res = extrude_beam_memory ⟨points, g.2.connectivity⟩
          (((dictGet geom_map (g.1.trim.toUpper)).bind GeomConfig.section_mesh).getD ⟨[], []⟩)
          (((dictGet geom_map (g.1.trim.toUpper)).map GeomConfig.section_params).getD
            ⟨none, none⟩) ∨
        res = extrude_shell_memory normalsOf ⟨points, g.2.connectivity, g.2.vtk_type⟩
          (((dictGet geom_map (g.1.trim.toUpper)).map GeomConfig.section_params).getD
            ⟨none, none⟩)) ∧
      res.status ≠ some "empty" ∧
      (processGroup normalsOf points geom_map acc g).1 = acc.1 ++ res.points ∧
      e = ⟨"quad", 9, res.connectivity.map (List.map (· + acc.1.length / 3)), true, false⟩ := by
  by_cases hfull : g.1 = "_FULL_MESH_"
  · rw [processGroup, if_pos hfull] at hmem
    exact absurd hmem (hfresh e)
  · rcases processGroup_cases normalsOf points geom_map acc g hfull with hc | hc | hc
    · rw [hc] at hmem ⊢
      obtain ⟨h1, h2, h3⟩ := emitWithExtrusion_mem hfresh hmem
      exact ⟨_, Or.inl rfl, h1, h2, h3⟩
    · rw [hc] at hmem ⊢
      obtain ⟨h1, h2, h3⟩ := emitWithExtrusion_mem hfresh hmem
      exact ⟨_, Or.inr rfl, h1, h2, h3⟩
    · rw [hc] at hmem
      rcases dictInsert_mem hmem with h | h
      · exact absurd h (hfresh e)
      · exact absurd h (append_extrusion_ne_self g.1)

/-! ### Witness setup for C1: a one-triangle shell group with thickness 2 -/

/-- Looking a key up in a singleton dictionary. -/
theorem dictGet_single {α : Type} (k : String) (v : α) : dictGet [(k, v)] k = some v := by
  simp [dictGet]

/-- Evaluating the witness shell extrusion: the single point (0,0,0) is warped
to (0,0,-1) and extruded to (0,0,1). -/
theorem wRes_eval : wRes = ⟨none, [0, 0, -1, 0, 0, 1], [[0], [1]]⟩ := by
  simp only [wRes, extrude_shell_memory, reshape3, warpVector, linearExtrusionNormal,
    vtk_dataset_to_dict, flatten3, wNf]
  norm_num [Prod.smul_mk, Prod.mk_add_mk, smul_eq_mul]

/-- The witness per-group step takes the shell branch. -/
theorem wStep :
    processGroup wNf [(0 : ℝ), 0, 0] wGm ([(0 : ℝ), 0, 0], []) ("G", ⟨[], [[0]], 5⟩) =
      emitWithExtrusion ([(0 : ℝ), 0, 0], []) "G" ⟨"triangle", 5, [[0]], false, true⟩ wRes := by
  have hne1 : ¬ (("G" : String) = "_FULL_MESH_") := by decide
  simp only [processGroup, if_neg hne1, wGm, dictGet_single, Option.map_some', Option.getD_some,
    Option.bind_some]
  simp only [wCfg, cellTypeStr, deriveCategory]
  norm_num
  rw [if_pos]
  · rfl
  · intro h
    exact absurd h (by decide)

/-- The witness step emits the extruded component with shifted indices. -/
theorem wMem :
    (("G" : String) ++ "_EXTRUSION", (⟨"quad", 9, [[1], [2]], true, false⟩ : CellEntry)) ∈
      (processGroup wNf [(0 : ℝ), 0, 0] wGm ([(0 : ℝ), 0, 0], []) ("G", ⟨[], [[0]], 5⟩)).2 := by
  rw [wStep, wRes_eval]
  simp only [emitWithExtrusion, dictInsert]
  norm_num
  simp only [if_neg (by decide : ¬ (("G" : String) = "G" ++ "_EXTRUSION"))]
  simp

/-- Witness for C1: the shell-extruded component of the witness group is
stored with its connectivity shifted by the pre-append point count. -/
theorem claim_C1_witness :
    ∃ res : MeshDict,
      (res = extrude_beam_memory ⟨[(0 : ℝ), 0, 0], [[0]]⟩
          (((dictGet wGm (("G" : String).trim.toUpper)).bind GeomConfig.section_mesh).getD
            ⟨[], []⟩)
          (((dictGet wGm (("G" : String).trim.toUpper)).map GeomConfig.section_params).getD
            ⟨none, none⟩) ∨
        res = extrude_shell_memory wNf ⟨[(0 : ℝ), 0, 0], [[0]], 5⟩
          (((dictGet wGm (("G" : String).trim.toUpper)).map GeomConfig.section_params).getD
            ⟨none, none⟩)) ∧
      res.status ≠ some "empty" ∧
      (processGroup wNf [(0 : ℝ), 0, 0] wGm ([(0 : ℝ), 0, 0], []) ("G", ⟨[], [[0]], 5⟩)).1 =
        [(0 : ℝ), 0, 0] ++ res.points ∧
      (⟨"quad", 9, [[1], [2]], true, false⟩ : CellEntry) =
        ⟨"quad", 9, res.connectivity.map (List.map (· + [(0 : ℝ), 0, 0].length / 3)), true,
          false⟩ :=
  claim_C1 wNf [(0 : ℝ), 0, 0] wGm ([(0 : ℝ), 0, 0], []) ("G", ⟨[], [[0]], 5⟩)
    ⟨"quad", 9, [[1], [2]], true, false⟩ (by simp) wMem

/-! ## Theorems: beam direction normalization (C5) -/

/-- C5 counterexample: on the spec's own example — segments `(0,0,0)->(1,0,0)`
and `(2,0,0)->(1,0,0)` encoded as `[[0,1],[2,1]]` — the two unit tangents
cancel, the mean direction is zero, and `normalize_line_connectivity` flips
neither segment: the second output segment still points toward decreasing X
(`points[1].x - points[2].x < 0`), so the two segments do not agree. -/
theorem claim_C5_counterexample :
    normalize_line_connectivity [[0, 1], [2, 1]] wPts3 = [[0, 1], [2, 1]] ∧
    (wPts3.getD 1 (0, 0, 0)).1 - (wPts3.getD 2 (0, 0, 0)).1 < 0 := by
  constructor
  · simp only [normalize_line_connectivity, wPts3, List.foldl, avgDirStep, List.getD_cons_zero,
      List.getD_cons_succ, List.length_cons, List.length_nil]
    norm_num [Prod.mk_sub_mk, Prod.smul_mk, Prod.mk_add_mk, smul_eq_mul, vnorm, vdot,
      Real.sqrt_one, Prod.fst_zero, Prod.snd_zero]
  · norm_num [wPts3]

/-- C5 amended: a segment is flipped exactly when its direction has dot
product below `-1e-6` against the mean unit tangent, so agreement requires a
genuine majority.  With three collinear segments, two toward increasing X and
one reversed (`[[0,1],[2,1],[2,3]]`), the reversed one is flipped and every
output segment points toward increasing X. -/
theorem claim_C5 :
    normalize_line_connectivity [[0, 1], [2, 1], [2, 3]] wPts4 = [[0, 1], [1, 2], [2, 3]] ∧
    0 < (wPts4.getD 1 (0, 0, 0)).1 - (wPts4.getD 0 (0, 0, 0)).1 ∧
    0 < (wPts4.getD 2 (0, 0, 0)).1 - (wPts4.getD 1 (0, 0, 0)).1 ∧
    0 < (wPts4.getD 3 (0, 0, 0)).1 - (wPts4.getD 2 (0, 0, 0)).1 := by
  refine ⟨?_, by norm_num [wPts4], by norm_num [wPts4], by norm_num [wPts4]⟩
  simp only [normalize_line_connectivity, wPts4, List.foldl, avgDirStep, List.getD_cons_zero,
    List.getD_cons_succ, List.length_cons, List.length_nil]
  norm_num [Prod.mk_sub_mk, Prod.smul_mk, Prod.mk_add_mk, smul_eq_mul, vnorm, vdot,
    Real.sqrt_one, Prod.fst_zero, Prod.snd_zero]

/-! ## Theorems: Shell Extrusion Builder layout (C6) -/

/-- Composing two warps along the same normals adds their scales. -/
theorem warpVector_warpVector (s t : ℝ) (pts ns : List Vec3) :
    warpVector t (warpVector s pts ns) ns = warpVector (s + t) pts ns := by
  induction pts generalizing ns with
  | nil => rfl
  | cons p ps ih =>
    cases ns with
    | nil => rfl
    | cons n ns2 =>
      simp only [warpVector, List.zipWith_cons_cons] at *
      refine congrArg₂ List.cons ?_ (ih ns2)
      rw [add_smul, ← add_assoc]

/-- A warp keeps the number of points when there is one normal per point. -/
theorem warpVector_length (s : ℝ) (pts ns : List Vec3) (h : ns.length = pts.length) :
    (warpVector s pts ns).length = pts.length := by
  simp [warpVector, h]

/-- C6: with explicit `thickness = t` and `offset = o`, the shell builder
first displaces every point by `o - t/2` along its normal (the base face) and
then extrudes by exactly `t` further along the normal: its output points are
the base-face warp followed by the `o - t/2 + t` warp of the same points. -/
theorem claim_C6 (normalsOf : List Vec3 → List (List ℕ) → List Vec3)
    (data : ShellInput) (t o : ℝ)
    (hn : (normalsOf (reshape3 data.points) data.connectivity).length =
      (reshape3 data.points).length)
    (hne : reshape3 data.points ≠ []) :
    (extrude_shell_memory normalsOf data ⟨some t, some o⟩).points =
      flatten3 (warpVector (o - t / 2) (reshape3 data.points)
          (normalsOf (reshape3 data.points) data.connectivity) ++
        warpVector (o - t / 2 + t) (reshape3 data.points)
          (normalsOf (reshape3 data.points) data.connectivity)) := by
  simp only [extrude_shell_memory, Option.getD_some, linearExtrusionNormal,
    vtk_dataset_to_dict, warpVector_warpVector]
  rw [if_neg]
  have hw : (warpVector (o - t / 2) (reshape3 data.points)
      (normalsOf (reshape3 data.points) data.connectivity)).length =
      (reshape3 data.points).length :=
    warpVector_length _ _ _ hn
  simp only [List.length_append, hw]
  intro hcontra
  have : (reshape3 data.points).length = 0 := by omega
  exact hne (List.length_eq_zero.mp this)

/-- Witness for C6: one point with unit-Z normal, thickness 2, offset 0: the
base face sits at `(0,0,-1)` and the top face at `(0,0,1)`. -/
theorem claim_C6_witness :
    (extrude_shell_memory (fun _ _ => [((0 : ℝ), 0, 1)]) ⟨[(0 : ℝ), 0, 0], [[0]], 5⟩
        ⟨some 2, some 0⟩).points =
      flatten3 (warpVector ((0 : ℝ) - 2 / 2) (reshape3 [(0 : ℝ), 0, 0])
          ((fun _ _ => [((0 : ℝ), 0, 1)]) (reshape3 [(0 : ℝ), 0, 0]) [[0]]) ++
        warpVector ((0 : ℝ) - 2 / 2 + 2) (reshape3 [(0 : ℝ), 0, 0])
          ((fun _ _ => [((0 : ℝ), 0, 1)]) (reshape3 [(0 : ℝ), 0, 0]) [[0]])) :=
  claim_C6 (fun _ _ => [((0 : ℝ), 0, 1)]) ⟨[(0 : ℝ), 0, 0], [[0]], 5⟩ 2 0
    (by simp [reshape3]) (by simp [reshape3])

/-! ## Theorems: Beam Sweep Builder degenerate-segment skip (C8) -/

/-- A flipped vector has the same norm. -/
theorem vnorm_neg (v : Vec3) : vnorm (-v) = vnorm v := by
  unfold vnorm vdot
  simp only [Prod.fst_neg, Prod.snd_neg]
  congr 1
  ring

/-- Flattening triples the length. -/
theorem flatten3_length (l : List Vec3) : (flatten3 l).length = 3 * l.length := by
  induction l with
  | nil => rfl
  | cons v t ih =>
    simp only [flatten3, List.length_cons, ih]
    ring

/-- Unpacking `keepSegment = false`. -/
theorem keepSegment_eq_false {points : List Vec3} {seg : List ℕ}
    (h : keepSegment points seg = false) :
    ¬ seg.length < 2 ∧
      vnorm (points.getD (seg.getD 1 0) (0, 0, 0) -
        points.getD (seg.getD 0 0) (0, 0, 0)) < 1e-6 := by
  by_cases h1 : seg.length < 2
  · rw [keepSegment, if_pos h1] at h
    exact absurd h (by simp)
  · rw [keepSegment, if_neg h1] at h
    by_cases h2 : vnorm (points.getD (seg.getD 1 0) (0, 0, 0) -
        points.getD (seg.getD 0 0) (0, 0, 0)) < 1e-6
    · exact ⟨h1, h2⟩
    · rw [if_neg h2] at h
      exact absurd h (by simp)

/-- A degenerate segment contributes nothing to the mean-direction fold. -/
theorem avgDirStep_degenerate {points : List Vec3} {acc : Vec3 × ℕ} {seg : List ℕ}
    (h : keepSegment points seg = false) : avgDirStep points acc seg = acc := by
  obtain ⟨h1, h2⟩ := keepSegment_eq_false h
  simp only [avgDirStep, if_neg h1]
  rw [if_neg (lt_asymm h2)]

/-- Dropping the degenerate segments does not change the mean-direction fold. -/
theorem avgFold_filter (points : List Vec3) (conn : List (List ℕ)) (acc : Vec3 × ℕ) :
    (withoutDegenerate points conn).foldl (avgDirStep points) acc =
      conn.foldl (avgDirStep points) acc := by
  induction conn generalizing acc with
  | nil => rfl
  | cons a t ih =>
    by_cases hk : keepSegment points a = true
    · rw [withoutDegenerate, List.filter_cons_of_pos hk, List.foldl_cons, List.foldl_cons]
      exact ih _
    · have hk2 : keepSegment points a = false := by simpa using hk
      rw [withoutDegenerate, List.filter_cons_of_neg hk, List.foldl_cons,
        avgDirStep_degenerate hk2]
      exact ih _

/-- Mapping after filtering, when the dropped elements map to `none` anyway. -/
theorem filterMap_filter_of_none {α β : Type} (p : α → Bool) (f : α → Option β)
    (l : List α) (h : ∀ a ∈ l, p a = false → f a = none) :
    (l.filter p).filterMap f = l.filterMap f := by
  induction l with
  | nil => rfl
  | cons a t ih =>
    have ht : ∀ x ∈ t, p x = false → f x = none := fun x hx => h x (List.mem_cons_of_mem _ hx)
    by_cases hp : p a = true
    · rw [List.filter_cons_of_pos hp, List.filterMap_cons, List.filterMap_cons]
      cases hfa : f a <;> simp [ih ht]
    · have hpa : p a = false := by simpa using hp
      rw [List.filter_cons_of_neg hp, List.filterMap_cons,
        h a (List.mem_cons_self a t) hpa, ih ht]

/-- The per-segment loop body skips a degenerate segment. -/
theorem beamSegmentSolid_degenerate (pts : List Vec3) (sect : PolyData) {seg : List ℕ}
    (h : keepSegment pts seg = false) : beamSegmentSolid pts sect seg = none := by
  obtain ⟨h1, h2⟩ := keepSegment_eq_false h
  simp only [beamSegmentSolid, if_neg h1]
  rw [if_pos h2]

/-- The per-segment loop body also skips a degenerate segment after the
direction-normalization pass possibly reversed it. -/
theorem beamSegmentSolid_flip_degenerate (pts : List Vec3) (sect : PolyData) (avg : Vec3)
    {seg : List ℕ} (h : keepSegment pts seg = false) :
    beamSegmentSolid pts sect
      (if seg.length < 2 then seg
        else if vdot (pts.getD (seg.getD 1 0) (0, 0, 0) -
            pts.getD (seg.getD 0 0) (0, 0, 0)) avg < -1e-6
          then [seg.getD 1 0, seg.getD 0 0] else seg) = none := by
  obtain ⟨h1, h2⟩ := keepSegment_eq_false h
  rw [if_neg h1]
  split
  · have hrev : vnorm (pts.getD (seg.getD 0 0) (0, 0, 0) -
        pts.getD (seg.getD 1 0) (0, 0, 0)) < 1e-6 := by
      rw [← vnorm_neg, neg_sub]
      exact h2
    simp only [beamSegmentSolid, List.length_cons, List.length_singleton,
      List.getD_cons_zero, List.getD_cons_succ]
    rw [if_neg (by omega), if_pos hrev]
  · exact beamSegmentSolid_degenerate pts sect h

/-- Dropping the degenerate segments leaves the beam fragment list unchanged. -/
theorem beamFrags_filter (pts : List Vec3) (sect : PolyData) (conn : List (List ℕ)) :
    (normalize_line_connectivity (withoutDegenerate pts conn) pts).filterMap
        (beamSegmentSolid pts sect) =
      (normalize_line_connectivity conn pts).filterMap (beamSegmentSolid pts sect) := by
  by_cases hc : conn.length < 1
  · have hnil : conn = [] := List.length_eq_zero.mp (by omega)
    subst hnil
    rfl
  by_cases hf : (withoutDegenerate pts conn).length < 1
  · have hfe : withoutDegenerate pts conn = [] := List.length_eq_zero.mp (by omega)
    have hall : ∀ a ∈ conn, keepSegment pts a = false := by
      intro a ha
      by_contra hne
      have hmem : a ∈ withoutDegenerate pts conn :=
        List.mem_filter.mpr ⟨ha, by simpa using hne⟩
      rw [hfe] at hmem
      exact absurd hmem (List.not_mem_nil a)
    have hs : conn.foldl (avgDirStep pts) ((0, 0, 0), 0) = ((0, 0, 0), 0) := by
      rw [← avgFold_filter pts conn ((0, 0, 0), 0), hfe]
      rfl
    have hnorm : normalize_line_connectivity conn pts = conn := by
      simp only [normalize_line_connectivity, if_neg hc, hs]
      rfl
    rw [hfe, hnorm, show normalize_line_connectivity [] pts = [] from rfl]
    simp only [List.filterMap_nil]
    symm
    rw [List.filterMap_eq_nil]
    intro a ha
    exact beamSegmentSolid_degenerate pts sect (hall a ha)
  · simp only [normalize_line_connectivity, if_neg hc, if_neg hf,
      avgFold_filter pts conn ((0, 0, 0), 0)]
    by_cases hz : (conn.foldl (avgDirStep pts) ((0, 0, 0), 0)).2 = 0
    · rw [if_pos hz, if_pos hz]
      exact filterMap_filter_of_none _ _ _
        (fun a _ ha => beamSegmentSolid_degenerate pts sect ha)
    · rw [if_neg hz, if_neg hz, List.filterMap_map, List.filterMap_map]
      refine filterMap_filter_of_none _ _ _ (fun a _ ha => ?_)
      exact beamSegmentSolid_flip_degenerate pts sect _ ha

/-- The fragment of a valid segment: it exists and carries twice the profile's
points. -/
theorem beamSegmentSolid_some (pts : List Vec3) (sect : PolyData) (seg : List ℕ)
    (h1 : ¬ seg.length < 2)
    (h2 : ¬ vnorm (pts.getD (seg.getD 1 0) (0, 0, 0) -
      pts.getD (seg.getD 0 0) (0, 0, 0)) < 1e-6) :
    ∃ pd : PolyData, beamSegmentSolid pts sect seg = some pd ∧
      pd.points.length = 2 * sect.points.length := by
  simp only [beamSegmentSolid, if_neg h1, if_neg h2]
  refine ⟨_, rfl, ?_⟩
  simp only [linearExtrusionVector, transformPolyData, List.length_append, List.length_map]
  ring

/-- Direction normalization of the 3-segment beam fixture: the mean tangent
points toward increasing X and nothing is flipped. -/
theorem wBeamNormalize :
    normalize_line_connectivity [[0, 1], [1, 1], [1, 2]] (reshape3 wBeamFlat) =
      [[0, 1], [1, 1], [1, 2]] := by
  simp only [normalize_line_connectivity, wBeamFlat, reshape3, List.foldl, avgDirStep,
    List.getD_cons_zero, List.getD_cons_succ, List.length_cons, List.length_nil]
  norm_num [Prod.mk_sub_mk, Prod.smul_mk, Prod.mk_add_mk, smul_eq_mul, vnorm, vdot,
    Real.sqrt_one, Real.sqrt_zero, Prod.fst_zero, Prod.snd_zero]

/-- The zero-length segment `[1,1]` of the fixture is degenerate. -/
theorem wKeep11 : keepSegment (reshape3 wBeamFlat) [1, 1] = false := by
  simp only [keepSegment, wBeamFlat, reshape3, List.getD_cons_zero, List.getD_cons_succ,
    List.length_cons, List.length_nil]
  norm_num [Prod.mk_sub_mk, vnorm, vdot, Real.sqrt_zero]

/-- Filtering the fixture connectivity drops only the zero-length segment. -/
theorem wWithout :
    withoutDegenerate (reshape3 wBeamFlat) [[0, 1], [1, 1], [1, 2]] = [[0, 1], [1, 2]] := by
  simp only [withoutDegenerate, List.filter, keepSegment, wBeamFlat, reshape3,
    List.getD_cons_zero, List.getD_cons_succ, List.length_cons, List.length_nil]
  norm_num [Prod.mk_sub_mk, vnorm, vdot, Real.sqrt_zero, Real.sqrt_one,
    Prod.fst_zero, Prod.snd_zero]

/-- The fixture beam (one degenerate, two valid segments, square profile)
produces non-empty geometry: 16 solid points, i.e. 48 coordinates. -/
theorem wBeamEval :
    (extrude_beam_memory ⟨wBeamFlat, [[0, 1], [1, 1], [1, 2]]⟩ wSq ⟨none, none⟩).status =
      none ∧
    (extrude_beam_memory ⟨wBeamFlat, [[0, 1], [1, 1], [1, 2]]⟩ wSq
        ⟨none, none⟩).points.length = 48 := by
  obtain ⟨pd1, hpd1, hl1⟩ := beamSegmentSolid_some (reshape3 wBeamFlat)
    ⟨wSq.vertices.map (fun v => ((0 : ℝ), v.1, v.2)), wSq.triangles⟩ [0, 1]
    (by norm_num)
    (by simp only [wBeamFlat, reshape3, List.getD_cons_zero, List.getD_cons_succ]
        norm_num [Prod.mk_sub_mk, vnorm, vdot, Real.sqrt_one, Prod.fst_zero, Prod.snd_zero])
  obtain ⟨pd3, hpd3, hl3⟩ := beamSegmentSolid_some (reshape3 wBeamFlat)
    ⟨wSq.vertices.map (fun v => ((0 : ℝ), v.1, v.2)), wSq.triangles⟩ [1, 2]
    (by norm_num)
    (by simp only [wBeamFlat, reshape3, List.getD_cons_zero, List.getD_cons_succ]
        norm_num [Prod.mk_sub_mk, vnorm, vdot, Real.sqrt_one, Prod.fst_zero, Prod.snd_zero])
  have h11 : beamSegmentSolid (reshape3 wBeamFlat)
      ⟨wSq.vertices.map (fun v => ((0 : ℝ), v.1, v.2)), wSq.triangles⟩ [1, 1] = none :=
    beamSegmentSolid_degenerate _ _ wKeep11
  have hsq : ((⟨wSq.vertices.map (fun v => ((0 : ℝ), v.1, v.2)), wSq.triangles⟩ :
      PolyData)).points.length = 4 := by
    simp [wSq]
  rw [hsq] at hl1 hl3
  simp only [extrude_beam_memory, wBeamNormalize, List.filterMap_cons, hpd1, h11, hpd3,
    List.filterMap_nil, appendPolyData, List.foldl, vtk_dataset_to_dict]
  rw [if_neg]
  · refine ⟨rfl, ?_⟩
    simp only [List.nil_append, flatten3_length, List.length_append, hl1, hl3]
  · simp [hl1, hl3]

/-- C8: every segment with `|p2 - p1| < 1e-6` is skipped without raising and
contributes no geometry — removing the degenerate segments of any group leaves
the builder's output unchanged — while the remaining valid segments still
produce theirs: the fixture group with one degenerate and two valid segments
only retains the two valid ones and yields their two solids (16 points). -/
theorem claim_C8 :
    (∀ (beam_points : List ℝ) (conn : List (List ℕ)) (sm : SectionMesh)
        (params : SectionParams),
      extrude_beam_memory ⟨beam_points, conn⟩ sm params =
        extrude_beam_memory ⟨beam_points, withoutDegenerate (reshape3 beam_points) conn⟩
          sm params) ∧
    withoutDegenerate (reshape3 wBeamFlat) [[0, 1], [1, 1], [1, 2]] = [[0, 1], [1, 2]] ∧
    (extrude_beam_memory ⟨wBeamFlat, [[0, 1], [1, 1], [1, 2]]⟩ wSq ⟨none, none⟩).status =
      none ∧
    (extrude_beam_memory ⟨wBeamFlat, [[0, 1], [1, 1], [1, 2]]⟩ wSq
        ⟨none, none⟩).points.length = 48 := by
  refine ⟨?_, wWithout, wBeamEval.1, wBeamEval.2⟩
  intro beam_points conn sm params
  simp only [extrude_beam_memory]
  rw [beamFrags_filter]

/-! ## Theorems: empty-profile behaviour (C9) -/

/-- Any fragment the per-segment loop emits carries twice the profile's
points. -/
theorem beamSegmentSolid_length {pts : List Vec3} {sect : PolyData} {seg : List ℕ}
    {pd : PolyData} (h : beamSegmentSolid pts sect seg = some pd) :
    pd.points.length = 2 * sect.points.length := by
  by_cases h1 : seg.length < 2
  · simp only [beamSegmentSolid, if_pos h1] at h
    exact absurd h (by simp)
  · simp only [beamSegmentSolid, if_neg h1] at h
    by_cases h2 : vnorm (pts.getD (seg.getD 1 0) (0, 0, 0) -
        pts.getD (seg.getD 0 0) (0, 0, 0)) < 1e-6
    · rw [if_pos h2] at h
      exact absurd h (by simp)
    · rw [if_neg h2] at h
      injection h with hpd
      rw [← hpd]
      simp only [linearExtrusionVector, transformPolyData, List.length_append,
        List.length_map]
      ring

/-- Appending datasets that all have no points yields no points. -/
theorem appendPolyData_points_nil (l : List PolyData) (h : ∀ pd ∈ l, pd.points = []) :
    (appendPolyData l).points = [] := by
  have key : ∀ (l2 : List PolyData), (∀ pd ∈ l2, pd.points = []) → ∀ (acc : PolyData),
      acc.points = [] →
      (l2.foldl (fun acc pd =>
        ({ points := acc.points ++ pd.points,
           polys := acc.polys ++ pd.polys.map (List.map (· + acc.points.length)) } :
          PolyData)) acc).points = [] := by
    intro l2
    induction l2 with
    | nil => intro _ acc hacc; exact hacc
    | cons a t ih =>
      intro h2 acc hacc
      refine ih (fun pd hpd => h2 pd (List.mem_cons_of_mem _ hpd)) _ ?_
      simp [hacc, h2 a (List.mem_cons_self a t)]
  exact key l h ⟨[], []⟩ rfl

/-- C9 counterexample: a valid one-segment beam with a zero-vertex profile
raises nothing — no `EmptyProfileError` exists anywhere in the repository —
and returns the empty-status dictionary. -/
theorem claim_C9_counterexample :
    extrude_beam_memory ⟨[0, 0, 0, 1, 0, 0], [[0, 1]]⟩ ⟨[], []⟩ ⟨none, none⟩ =
      ⟨some "empty", [], []⟩ := by
  simp only [extrude_beam_memory, reshape3, List.map_nil]
  have hfrag : ∀ pd ∈ (normalize_line_connectivity [[0, 1]]
      [((0 : ℝ), (0 : ℝ), (0 : ℝ)), ((1 : ℝ), (0 : ℝ), (0 : ℝ))]).filterMap
        (beamSegmentSolid [((0 : ℝ), (0 : ℝ), (0 : ℝ)), ((1 : ℝ), (0 : ℝ), (0 : ℝ))]
          ⟨[], []⟩), pd.points = [] := by
    intro pd hpd
    rw [List.mem_filterMap] at hpd
    obtain ⟨seg, -, hseg⟩ := hpd
    have := beamSegmentSolid_length hseg
    simp only [List.length_nil, Nat.mul_zero] at this
    exact List.length_eq_zero.mp this
  have happ := appendPolyData_points_nil _ hfrag
  rw [vtk_dataset_to_dict, if_pos (by rw [happ]; rfl)]

/-- C9 amended: a zero-vertex Cross-Section Profile makes the Beam Sweep
Builder return the empty result (`status = "empty"`) without raising, and the
scene-assembly emission step then records only the `is_base` cell, leaving the
running points array (the offset state) untouched — no partial solid is
emitted for the group. -/
theorem claim_C9 (beam_data : BeamInput) (tris : List (List ℕ)) (params : SectionParams)
    (acc : List ℝ × List (String × CellEntry)) (g_name : String) (base : CellEntry) :
    (extrude_beam_memory beam_data ⟨[], tris⟩ params).status = some "empty" ∧
    emitWithExtrusion acc g_name base (extrude_beam_memory beam_data ⟨[], tris⟩ params) =
      (acc.1, dictInsert acc.2 g_name base) := by
  have hstat : (extrude_beam_memory beam_data ⟨[], tris⟩ params).status = some "empty" := by
    simp only [extrude_beam_memory, List.map_nil]
    have hfrag : ∀ pd ∈ (normalize_line_connectivity beam_data.connectivity
        (reshape3 beam_data.points)).filterMap
          (beamSegmentSolid (reshape3 beam_data.points) ⟨[], tris⟩), pd.points = [] := by
      intro pd hpd
      rw [List.mem_filterMap] at hpd
      obtain ⟨seg, -, hseg⟩ := hpd
      have := beamSegmentSolid_length hseg
      simp only [List.length_nil, Nat.mul_zero] at this
      exact List.length_eq_zero.mp this
    have happ := appendPolyData_points_nil _ hfrag
    rw [vtk_dataset_to_dict, if_pos (by rw [happ]; rfl)]
  refine ⟨hstat, ?_⟩
  simp only [emitWithExtrusion]
  rw [if_neg (fun hc => hc hstat)]

/-! ## Theorems: merged-scene index validity (C2) -/

/-- C2 counterexample: every group of `cexGroups` is valid against its own
points (group `"G"` has two points and index 1), yet the pipeline pairs its
connectivity with the one-point master array, and the resulting scene stores
index 1 against `len(points)/3 = 1` — the invariant fails. -/
theorem claim_C2_counterexample :
    groupOwnValid cexGroups ∧
    med_to_vtk_pipeline (fun _ _ => []) cexGroups [] = Except.ok cexOut ∧
    ¬ sceneValid cexOut := by
  refine ⟨?_, rfl, ?_⟩
  · intro g hg c hc i hi
    simp only [cexGroups, List.mem_cons, List.not_mem_nil, or_false] at hg
    rcases hg with rfl | rfl
    · simp at hc
    · simp only [List.mem_cons, List.not_mem_nil, or_false] at hc
      subst hc
      simp only [List.mem_cons, List.not_mem_nil, or_false] at hi
      subst hi
      simp
  · intro h
    have := h ("G", ⟨"vertex", 1, [[1]], false, true⟩) (by simp [cexOut]) [1] (by simp) 1
      (by simp)
    simp [cexOut] at this

/-- Transforming preserves dataset validity. -/
theorem transformPolyData_valid {f : Vec3 → Vec3} {pd : PolyData} (h : pdValid pd) :
    pdValid (transformPolyData f pd) := by
  intro c hc i hi
  simp only [transformPolyData, List.length_map]
  exact h c hc i hi

/-- Vector extrusion preserves dataset validity. -/
theorem linearExtrusionVector_valid {v : Vec3} {s : ℝ} {pd : PolyData} (h : pdValid pd) :
    pdValid (linearExtrusionVector v s pd) := by
  intro c hc i hi
  simp only [linearExtrusionVector, List.length_append, List.length_map] at hc ⊢
  rw [List.mem_append] at hc
  rcases hc with hc | hc
  · have := h c hc i hi
    omega
  · obtain ⟨c0, hc0, rfl⟩ := List.mem_map.mp hc
    obtain ⟨i0, hi0, rfl⟩ := List.mem_map.mp hi
    have := h c0 hc0 i0 hi0
    omega

/-- Normal extrusion preserves validity when there is one normal per point. -/
theorem linearExtrusionNormal_valid {s : ℝ} {pd : PolyData} {ns : List Vec3}
    (hlen : ns.length = pd.points.length) (h : pdValid pd) :
    pdValid (linearExtrusionNormal s pd ns) := by
  have hw : (warpVector s pd.points ns).length = pd.points.length := by
    simp [warpVector, hlen]
  intro c hc i hi
  simp only [linearExtrusionNormal, List.length_append, hw] at hc ⊢
  rw [List.mem_append] at hc
  rcases hc with hc | hc
  · have := h c hc i hi
    omega
  · obtain ⟨c0, hc0, rfl⟩ := List.mem_map.mp hc
    obtain ⟨i0, hi0, rfl⟩ := List.mem_map.mp hi
    have := h c0 hc0 i0 hi0
    omega

/-- Appending preserves dataset validity. -/
theorem appendPolyData_valid (l : List PolyData) (h : ∀ pd ∈ l, pdValid pd) :
    pdValid (appendPolyData l) := by
  have key : ∀ (l2 : List PolyData), (∀ pd ∈ l2, pdValid pd) → ∀ acc : PolyData,
      pdValid acc →
      pdValid (l2.foldl (fun acc pd =>
        ({ points := acc.points ++ pd.points,
           polys := acc.polys ++ pd.polys.map (List.map (· + acc.points.length)) } :
          PolyData)) acc) := by
    intro l2
    induction l2 with
    | nil => intro _ acc hacc; exact hacc
    | cons a t ih =>
      intro h2 acc hacc
      refine ih (fun pd hpd => h2 pd (List.mem_cons_of_mem _ hpd)) _ ?_
      intro c hc i hi
      simp only [List.length_append] at hc ⊢
      rw [List.mem_append] at hc
      rcases hc with hc | hc
      · have := hacc c hc i hi
        omega
      · obtain ⟨c0, hc0, rfl⟩ := List.mem_map.mp hc
        obtain ⟨i0, hi0, rfl⟩ := List.mem_map.mp hi
        have := h2 a (List.mem_cons_self a t) c0 hc0 i0 hi0
        omega
  exact key l h ⟨[], []⟩ (by intro c hc; simp at hc)

/-- The dictionary of a valid dataset: its coordinate count is a multiple of 3
and every index fits three coordinates in. -/
theorem vtk_dataset_to_dict_valid {pd : PolyData} (h : pdValid pd) :
    3 ∣ (vtk_dataset_to_dict pd).points.length ∧
    ∀ c ∈ (vtk_dataset_to_dict pd).connectivity, ∀ i ∈ c,
      3 * i < (vtk_dataset_to_dict pd).points.length := by
  unfold vtk_dataset_to_dict
  split
  · exact ⟨⟨0, rfl⟩, by intro c hc; simp at hc⟩
  · refine ⟨⟨pd.points.length, flatten3_length pd.points⟩, ?_⟩
    intro c hc i hi
    rw [flatten3_length]
    have := h c hc i hi
    omega

/-- Any fragment the per-segment loop emits is valid when the profile is. -/
theorem beamSegmentSolid_valid {pts : List Vec3} {sect : PolyData} {seg : List ℕ}
    {pd : PolyData} (hsect : pdValid sect) (h : beamSegmentSolid pts sect seg = some pd) :
    pdValid pd := by
  by_cases h1 : seg.length < 2
  · simp only [beamSegmentSolid, if_pos h1] at h
    exact absurd h (by simp)
  · simp only [beamSegmentSolid, if_neg h1] at h
    by_cases h2 : vnorm (pts.getD (seg.getD 1 0) (0, 0, 0) -
        pts.getD (seg.getD 0 0) (0, 0, 0)) < 1e-6
    · rw [if_pos h2] at h
      exact absurd h (by simp)
    · rw [if_neg h2] at h
      injection h with hpd
      rw [← hpd]
      exact linearExtrusionVector_valid (transformPolyData_valid hsect)

/-- The Beam Sweep Builder's result is valid when the profile's triangles are
valid against its vertices. -/
theorem extrude_beam_memory_valid (beam_data : BeamInput) (sm : SectionMesh)
    (params : SectionParams)
    (hsm : ∀ t ∈ sm.triangles, ∀ i ∈ t, i < sm.vertices.length) :
    3 ∣ (extrude_beam_memory beam_data sm params).points.length ∧
    ∀ c ∈ (extrude_beam_memory beam_data sm params).connectivity, ∀ i ∈ c,
      3 * i < (extrude_beam_memory beam_data sm params).points.length := by
  have hsect : pdValid ⟨sm.vertices.map (fun v => ((0 : ℝ), v.1, v.2)), sm.triangles⟩ := by
    intro c hc i hi
    simp only [List.length_map]
    exact hsm c hc i hi
  simp only [extrude_beam_memory]
  refine vtk_dataset_to_dict_valid (appendPolyData_valid _ (fun pd hpd => ?_))
  rw [List.mem_filterMap] at hpd
  obtain ⟨seg, -, hseg⟩ := hpd
  exact beamSegmentSolid_valid hsect hseg

/-- The Shell Extrusion Builder's result is valid when the input connectivity
is valid against the input points and the normals are one per point. -/
theorem extrude_shell_memory_valid (normalsOf : List Vec3 → List (List ℕ) → List Vec3)
    (data : ShellInput) (params : SectionParams)
    (hnf : ∀ pts conn, (normalsOf pts conn).length = pts.length)
    (hconn : ∀ c ∈ data.connectivity, ∀ i ∈ c, i < (reshape3 data.points).length) :
    3 ∣ (extrude_shell_memory normalsOf data params).points.length ∧
    ∀ c ∈ (extrude_shell_memory normalsOf data params).connectivity, ∀ i ∈ c,
      3 * i < (extrude_shell_memory normalsOf data params).points.length := by
  have hwlen : (warpVector (params.offset.getD 0 - params.thickness.getD 10 / 2)
      (reshape3 data.points) (normalsOf (reshape3 data.points) data.connectivity)).length =
      (reshape3 data.points).length := by
    simp [warpVector, hnf]
  simp only [extrude_shell_memory]
  refine vtk_dataset_to_dict_valid (linearExtrusionNormal_valid ?_ ?_)
  · rw [hwlen]
    exact hnf _ _
  · intro c hc i hi
    rw [hwlen]
    exact hconn c hc i hi

/-- Membership after a dictionary assignment, pair form. -/
theorem dictInsert_mem_pair {α : Type} {m : List (String × α)} {k : String} {v : α}
    {p : String × α} (h : p ∈ dictInsert m k v) : p ∈ m ∨ p = (k, v) := by
  unfold dictInsert at h
  split at h
  · rw [List.mem_map] at h
    obtain ⟨q, hq, hpq⟩ := h
    by_cases hk : q.1 = k
    · right
      rw [← hpq, if_pos hk]
    · left
      rw [← hpq, if_neg hk]
      exact hq
  · rw [List.mem_append] at h
    rcases h with h | h
    · exact Or.inl h
    · right
      simpa using h

/-- Every configuration stored in the geometry map comes from the input list. -/
theorem buildGeomMap_snd_mem (geoms : List GeomConfig) {p : String × GeomConfig}
    (h : p ∈ buildGeomMap geoms) : p.2 ∈ geoms := by
  suffices key : ∀ (l : List GeomConfig) (acc : List (String × GeomConfig)),
      (∀ q ∈ acc, (q : String × GeomConfig).2 ∈ geoms) → (∀ g ∈ l, g ∈ geoms) →
      ∀ q ∈ l.foldl (fun m g =>
        match g.group with
        | some name => if name = "" then m else dictInsert m (name.trim.toUpper) g
        | none => m) acc, (q : String × GeomConfig).2 ∈ geoms by
    exact key geoms [] (by simp) (fun g hg => hg) p h
  intro l
  induction l with
  | nil => intro acc hacc _ q hq; exact hacc q hq
  | cons a t ih =>
    intro acc hacc hsub q hq
    refine ih _ ?_ (fun g hg => hsub g (List.mem_cons_of_mem _ hg)) q hq
    intro r hr
    simp only at hr
    cases hgr : a.group with
    | none =>
      rw [hgr] at hr
      exact hacc r hr
    | some name =>
      rw [hgr] at hr
      simp only at hr
      by_cases hname : name = ""
      · rw [if_pos hname] at hr
        exact hacc r hr
      · rw [if_neg hname] at hr
        rcases dictInsert_mem_pair hr with hr | hr
        · exact hacc r hr
        · rw [hr]
          exact hsub a (List.mem_cons_self a t)

/-- A successful dictionary lookup returns a stored value. -/
theorem dictGet_mem {α : Type} {m : List (String × α)} {k : String} {v : α}
    (h : dictGet m k = some v) : ∃ k2 : String, (k2, v) ∈ m := by
  unfold dictGet at h
  cases hf : m.find? (fun p => p.1 = k) with
  | none =>
    rw [hf] at h
    simp at h
  | some p =>
    rw [hf] at h
    simp only [Option.map_some', Option.some.injEq] at h
    refine ⟨p.1, ?_⟩
    rw [← h]
    exact List.mem_of_find?_eq_some hf

/-- Regrouping into triples divides the length by 3. -/
theorem reshape3_length : ∀ l : List ℝ, (reshape3 l).length = l.length / 3
  | _ :: _ :: _ :: rest => by
    simp only [reshape3, List.length_cons, reshape3_length rest]
    omega
  | [] => rfl
  | [_] => by simp [reshape3]
  | [_, _] => by simp [reshape3]

/-- The emission block preserves the assembler invariant: divisible point
count, master prefix retained, and all stored indices within bounds. -/
theorem emitWithExtrusion_preserves {acc : List ℝ × List (String × CellEntry)}
    {g_name : String} {base : CellEntry} {res : MeshDict} {master : List ℝ}
    (hbase : ∀ c ∈ base.connectivity, ∀ i ∈ c, 3 * i < acc.1.length)
    (hres : 3 ∣ res.points.length ∧
      ∀ c ∈ res.connectivity, ∀ i ∈ c, 3 * i < res.points.length)
    (hinv : 3 ∣ acc.1.length ∧ master.length ≤ acc.1.length ∧
      ∀ p ∈ acc.2, ∀ c ∈ (p : String × CellEntry).2.connectivity, ∀ i ∈ c,
        3 * i < acc.1.length) :
    3 ∣ (emitWithExtrusion acc g_name base res).1.length ∧
    master.length ≤ (emitWithExtrusion acc g_name base res).1.length ∧
    ∀ p ∈ (emitWithExtrusion acc g_name base res).2,
      ∀ c ∈ (p : String × CellEntry).2.connectivity, ∀ i ∈ c,
        3 * i < (emitWithExtrusion acc g_name base res).1.length := by
  obtain ⟨hd, hm, hcells⟩ := hinv
  obtain ⟨hrd, hrc⟩ := hres
  unfold emitWithExtrusion
  split
  · simp only [List.length_append]
    obtain ⟨k, hk⟩ := hd
    obtain ⟨k2, hk2⟩ := hrd
    refine ⟨⟨k + k2, by omega⟩, by omega, ?_⟩
    intro p hp c hc i hi
    rcases dictInsert_mem_pair hp with hp | hp
    · rcases dictInsert_mem_pair hp with hp | hp
      · have := hcells p hp c hc i hi
        omega
      · rw [hp] at hc
        have := hbase c hc i hi
        omega
    · rw [hp] at hc
      simp only at hc
      obtain ⟨c0, hc0, rfl⟩ := List.mem_map.mp hc
      obtain ⟨i0, hi0, rfl⟩ := List.mem_map.mp hi
      have := hrc c0 hc0 i0 hi0
      have hdiv3 : acc.1.length / 3 = k := by omega
      rw [hdiv3]
      omega
  · refine ⟨hd, hm, ?_⟩
    intro p hp c hc i hi
    rcases dictInsert_mem_pair hp with hp | hp
    · exact hcells p hp c hc i hi
    · rw [hp] at hc
      exact hbase c hc i hi

/-- The per-group step preserves the assembler invariant. -/
theorem processGroup_preserves (normalsOf : List Vec3 → List (List ℕ) → List Vec3)
    (master : List ℝ) (geoms : List GeomConfig)
    (acc : List ℝ × List (String × CellEntry)) (g : String × GroupData)
    (hnf : ∀ pts conn, (normalsOf pts conn).length = pts.length)
    (hprof : geomProfilesValid geoms)
    (hg : ∀ c ∈ g.2.connectivity, ∀ i ∈ c, i < master.length / 3)
    (hdiv : 3 ∣ master.length)
    (hinv : 3 ∣ acc.1.length ∧ master.length ≤ acc.1.length ∧
      ∀ p ∈ acc.2, ∀ c ∈ (p : String × CellEntry).2.connectivity, ∀ i ∈ c,
        3 * i < acc.1.length) :
    3 ∣ (processGroup normalsOf master (buildGeomMap geoms) acc g).1.length ∧
    master.length ≤ (processGroup normalsOf master (buildGeomMap geoms) acc g).1.length ∧
    ∀ p ∈ (processGroup normalsOf master (buildGeomMap geoms) acc g).2,
      ∀ c ∈ (p : String × CellEntry).2.connectivity, ∀ i ∈ c,
        3 * i < (processGroup normalsOf master (buildGeomMap geoms) acc g).1.length := by
  obtain ⟨k, hk⟩ := hdiv
  have hbase : ∀ c ∈ g.2.connectivity, ∀ i ∈ c, 3 * i < acc.1.length := by
    intro c hc i hi
    have h1 := hg c hc i hi
    have h2 := hinv.2.1
    omega
  have hsm : ∀ t ∈ (((dictGet (buildGeomMap geoms) (g.1.trim.toUpper)).bind
      GeomConfig.section_mesh).getD ⟨[], []⟩).triangles, ∀ i ∈ t,
      i < (((dictGet (buildGeomMap geoms) (g.1.trim.toUpper)).bind
        GeomConfig.section_mesh).getD ⟨[], []⟩).vertices.length := by
    cases hcfg : dictGet (buildGeomMap geoms) (g.1.trim.toUpper) with
    | none => simp
    | some cfg =>
      obtain ⟨k2, hmem⟩ := dictGet_mem hcfg
      have hcfg2 : cfg ∈ geoms := buildGeomMap_snd_mem geoms hmem
      cases hsec : cfg.section_mesh with
      | none => simp [Option.some_bind, hsec]
      | some sm =>
        simp only [Option.some_bind, hsec, Option.getD_some]
        exact hprof cfg hcfg2 sm hsec
  by_cases hfull : g.1 = "_FULL_MESH_"
  · simp only [processGroup, if_pos hfull]
    exact hinv
  · rcases processGroup_cases normalsOf master (buildGeomMap geoms) acc g hfull
      with hc | hc | hc
    · rw [hc]
      exact emitWithExtrusion_preserves hbase
        (extrude_beam_memory_valid ⟨master, g.2.connectivity⟩ _ _ hsm) hinv
    · rw [hc]
      refine emitWithExtrusion_preserves hbase
        (extrude_shell_memory_valid normalsOf ⟨master, g.2.connectivity, g.2.vtk_type⟩ _
          hnf ?_) hinv
      intro c hcc i hi
      rw [reshape3_length]
      exact hg c hcc i hi
    · rw [hc]
      refine ⟨hinv.1, hinv.2.1, ?_⟩
      intro p hp c hcc i hi
      rcases dictInsert_mem_pair hp with hp | hp
      · exact hinv.2.2 p hp c hcc i hi
      · rw [hp] at hcc
        exact hbase c hcc i hi

/-- C2 amended: when every group's connectivity is valid against the master
(full-mesh) points, the master coordinate count is a multiple of 3, the
normals filter yields one normal per point, and every configured profile is
internally valid, every connectivity index of every component of the merged
scene is below `len(points)/3`. -/
theorem claim_C2 (normalsOf : List Vec3 → List (List ℕ) → List Vec3)
    (mesh_groups : List (String × GroupData)) (geometries : List GeomConfig)
    (out : PipelineOut) (fm : GroupData)
    (hfm : pipelineFullMesh mesh_groups = some fm)
    (hdiv : 3 ∣ fm.points.length)
    (hvalid : groupMasterValid mesh_groups fm.points)
    (hnf : ∀ pts conn, (normalsOf pts conn).length = pts.length)
    (hprof : geomProfilesValid geometries)
    (h : med_to_vtk_pipeline normalsOf mesh_groups geometries = Except.ok out) :
    sceneValid out := by
  unfold med_to_vtk_pipeline at h
  rw [hfm] at h
  simp only [Except.ok.injEq] at h
  have key : ∀ (gs : List (String × GroupData))
      (acc : List ℝ × List (String × CellEntry)),
      (∀ g ∈ gs, ∀ c ∈ (g : String × GroupData).2.connectivity, ∀ i ∈ c,
        i < fm.points.length / 3) →
      (3 ∣ acc.1.length ∧ fm.points.length ≤ acc.1.length ∧
        ∀ p ∈ acc.2, ∀ c ∈ (p : String × CellEntry).2.connectivity, ∀ i ∈ c,
          3 * i < acc.1.length) →
      3 ∣ (gs.foldl (processGroup normalsOf fm.points (buildGeomMap geometries)) acc).1.length ∧
      fm.points.length ≤
        (gs.foldl (processGroup normalsOf fm.points (buildGeomMap geometries)) acc).1.length ∧
      ∀ p ∈ (gs.foldl (processGroup normalsOf fm.points (buildGeomMap geometries)) acc).2,
        ∀ c ∈ (p : String × CellEntry).2.connectivity, ∀ i ∈ c,
          3 * i <
            (gs.foldl (processGroup normalsOf fm.points (buildGeomMap geometries)) acc).1.length := by
    intro gs
    induction gs with
    | nil => intro acc _ hacc; exact hacc
    | cons a t ih =>
      intro acc hgs hacc
      refine ih _ (fun g hg => hgs g (List.mem_cons_of_mem _ hg)) ?_
      exact processGroup_preserves normalsOf fm.points geometries acc a hnf hprof
        (hgs a (List.mem_cons_self a t)) hdiv hacc
  obtain ⟨hd, -, hcells⟩ := key mesh_groups (fm.points, [])
    (fun g hg => hvalid g hg) ⟨hdiv, le_refl _, by intro p hp; simp at hp⟩
  rw [← h]
  intro p hp c hc i hi
  have h3 := hcells p hp c hc i hi
  obtain ⟨k, hk⟩ := hd
  simp only at h3 ⊢
  omega

/-- Witness for the amended C2: a one-point scene with a vertex group indexing
point 0 satisfies the invariant. -/
theorem claim_C2_witness : sceneValid c2wOut :=
  claim_C2 (fun pts _ => pts) c2wGroups [] c2wOut ⟨[(0 : ℝ), 0, 0], [], 5⟩ rfl ⟨1, rfl⟩
    (by intro g hg c hc i hi
        simp only [c2wGroups, List.mem_cons, List.not_mem_nil, or_false] at hg
        rcases hg with rfl | rfl
        · simp at hc
        · simp only [List.mem_cons, List.not_mem_nil, or_false] at hc
          subst hc
          simp only [List.mem_cons, List.not_mem_nil, or_false] at hi
          subst hi
          simp)
    (fun _ _ => rfl) (by intro g hg; simp at hg) rfl

end Med
